import Mathlib

/-!
Verification of the core logic of the `vocab` flashcard application
(`script.js`): the spaced-repetition review scheduler (`updateProgress`,
`getWordsForReview`), the verb-conjugation engine (`getVerbForms` with its
`irregularVerbs` table), and the difficulty classifier (`determineLevel`
with its `wordFrequency` table and derived `levelMapping` lists).

Modelling conventions:
* JS numbers holding the ease factor are modelled as exact rationals (`ℚ`);
  the arithmetic performed on them (`+ 0.1`, `- 0.2`, `Math.min`, `Math.max`,
  `Math.ceil`) is modelled by the corresponding exact operations.
* Timestamps are milliseconds since the Unix epoch; `Date.now()` values are
  modelled as natural numbers (the clock is never negative), while stored
  `nextReview` values live in `ℤ` so that out-of-range ease factors still
  produce a well-defined schedule.
* The several `Date.now()` calls inside one `updateProgress` run are modelled
  by a single `now` argument, and the `localStorage` round-trip is made
  explicit: the state of one progress entry goes in and the updated entry
  comes out.
* JS objects used as maps are modelled as association lists; a JS object
  literal with duplicate keys keeps the first insertion position of a key but
  its last written value, which the frequency-table embedding reproduces.
-/

/-- One progress entry, as created and mutated by `updateProgress` in
`script.js`: `{ correct, incorrect, lastReview, nextReview, ease }`.
`lastReview` is `none` while the JS field is `null`. -/
structure ReviewState where
  correct : ℕ
  incorrect : ℕ
  lastReview : Option ℕ
  nextReview : ℤ
  ease : ℚ
deriving DecidableEq

/-- The fresh entry `{ correct: 0, incorrect: 0, lastReview: null,
nextReview: Date.now(), ease: 2.5 }` installed by `updateProgress` when a
vocab id has no stored progress yet. -/
def initProgress (now : ℕ) : ReviewState :=
  ⟨0, 0, none, (now : ℤ), 5/2⟩

/-- State transition of `updateProgress` (script.js) on one progress entry:
on a correct answer increment `correct` and set
`ease = Math.min(2.5, ease + 0.1)`; on an incorrect answer increment
`incorrect` and set `ease = Math.max(1.3, ease - 0.2)`; then set
`lastReview = now` and `nextReview = now + Math.ceil(ease) * 24*60*60*1000`. -/
def updateProgress (st : ReviewState) (isCorrect : Bool) (now : ℕ) : ReviewState :=
  let st1 : ReviewState :=
    if isCorrect then
      ⟨st.correct + 1, st.incorrect, st.lastReview, st.nextReview, min (5/2) (st.ease + 1/10)⟩
    else
      ⟨st.correct, st.incorrect + 1, st.lastReview, st.nextReview, max (13/10) (st.ease - 1/5)⟩
  let daysUntilNext : ℤ := ⌈st1.ease⌉
  ⟨st1.correct, st1.incorrect, some now, (now : ℤ) + daysUntilNext * (24 * 60 * 60 * 1000), st1.ease⟩

/-- A whole review session: fold `updateProgress` over a list of
(outcome, timestamp) pairs, one call per answered quiz item. -/
def applyOutcomes (st : ReviewState) (l : List (Bool × ℕ)) : ReviewState :=
  l.foldl (fun s p => updateProgress s p.1 p.2) st

/-- The filter of `getWordsForReview` (script.js): keep every id of the word
bank whose stored progress (defaulting to `{ nextReview: 0 }` when the id has
no entry) satisfies `nextReview <= now`. -/
def getWordsForReview (wordBank : List ℕ) (progress : List (ℕ × ReviewState))
    (now : ℕ) : List ℕ :=
  wordBank.filter (fun id =>
    match progress.lookup id with
    | some st => decide (st.nextReview ≤ (now : ℤ))
    | none => decide ((0 : ℤ) ≤ (now : ℤ)))


/-- Vowel test used by the conjugation and classification regexes of
`script.js`: the character class `[aeiou]`. -/
def isVowel (c : Char) : Bool :=
  c == 'a' || c == 'e' || c == 'i' || c == 'o' || c == 'u'

/-- JS `toLowerCase()` on the ASCII verb strings this program handles. -/
def toLowerStr (s : String) : String :=
  String.mk (s.toList.map Char.toLower)

/-- JS `String.prototype.startsWith`. -/
def strStartsWith (s pre : String) : Bool :=
  pre.toList.isPrefixOf s.toList

/-- JS `String.prototype.endsWith`. -/
def strEndsWith (s suf : String) : Bool :=
  suf.toList.reverse.isPrefixOf s.toList.reverse

/-- Substring occurrence at any position, on character lists. -/
def charListIncludes (sub : List Char) : List Char → Bool
  | [] => sub.isPrefixOf []
  | c :: rest => sub.isPrefixOf (c :: rest) || charListIncludes sub rest

/-- JS `String.prototype.includes`. -/
def strIncludes (s sub : String) : Bool :=
  charListIncludes sub.toList s.toList

/-- JS `s.slice(0, -1)`: the string without its final character. -/
def jsDropLast (s : String) : String :=
  String.mk s.toList.dropLast

/-- JS `s.slice(-1)`: the final character as a one-character string (empty
for the empty string). -/
def jsSliceLast (s : String) : String :=
  match s.toList.reverse with
  | c :: _ => String.mk [c]
  | [] => ""

/-- Test of the regex `/[^aeiou]y$/` from `getVerbForms`: the string ends in
a non-vowel character followed by `y`. -/
def regexConsonantYEnd (s : String) : Bool :=
  match s.toList.reverse with
  | c1 :: c2 :: _ => c1 == 'y' && !(isVowel c2)
  | _ => false

/-- Test of the regex `/[aeiou][^aeiou]$/` from `getVerbForms`: the string
ends in a vowel followed by a non-vowel character. -/
def regexVowelConsonantEnd (s : String) : Bool :=
  match s.toList.reverse with
  | c1 :: c2 :: _ => !(isVowel c1) && isVowel c2
  | _ => false

/-- Conjugation classification of `getVerbForms`. The source tags the
table-lookup case with the string `irregular` and the suffix-rule case with
the string `common`; the spec's data model names these two enum values
`irregular` and `regular`. -/
inductive ConjugationType where
  | irregular : ConjugationType
  | regular : ConjugationType
deriving DecidableEq

/-- Result record of `getVerbForms`: `{v1, v2, v3, type}`. -/
structure VerbForms where
  v1 : String
  v2 : String
  v3 : String
  type : ConjugationType
deriving DecidableEq

/-- The `irregularVerbs` table of `script.js`, as (base, v2, v3) triples in
source order. -/
def irregularVerbs : List (String × String × String) := [
    ("go", "went", "gone"), ("eat", "ate", "eaten"), ("see", "saw", "seen"),
    ("take", "took", "taken"), ("come", "came", "come"), ("get", "got", "gotten"),
    ("make", "made", "made"), ("know", "knew", "known"), ("think", "thought", "thought"),
    ("give", "gave", "given"), ("find", "found", "found"), ("tell", "told", "told"),
    ("buy", "bought", "bought"), ("sell", "sold", "sold"), ("meet", "met", "met"),
    ("write", "wrote", "written"), ("read", "read", "read"), ("speak", "spoke", "spoken"),
    ("feel", "felt", "felt"), ("run", "ran", "run"), ("swim", "swam", "swum"),
    ("win", "won", "won"), ("sleep", "slept", "slept"), ("drink", "drank", "drunk"),
    ("hang", "hung", "hung")]

/-- The conjugation engine `getVerbForms` of `script.js`: lower-case the
verb; if it is a key of `irregularVerbs` return the stored forms with the
irregular tag, otherwise derive the past form by the four suffix rules
(`endsWith('e')`, `/[^aeiou]y$/`, `/[aeiou][^aeiou]$/`, default `+ed`) and
return it as both v2 and v3 with the regular tag (spelled `common` in the
source). -/
def getVerbForms (verb : String) : VerbForms :=
  let lowerVerb := toLowerStr verb
  match irregularVerbs.lookup lowerVerb with
  | some pq => ⟨lowerVerb, pq.1, pq.2, ConjugationType.irregular⟩
  | none =>
    let v2 :=
      if strEndsWith lowerVerb "e" then lowerVerb ++ "d"
      else if regexConsonantYEnd lowerVerb then jsDropLast lowerVerb ++ "ied"
      else if regexVowelConsonantEnd lowerVerb then lowerVerb ++ jsSliceLast lowerVerb ++ "ed"
      else lowerVerb ++ "ed"
    ⟨lowerVerb, v2, v2, ConjugationType.regular⟩

/-- Regular-past derivation exactly as the spec words its four rules, in the
spec's precedence order, reading the final characters of the lower-cased
base: (1) final `e` appends `d`; (2) final non-vowel-then-`y` drops the `y`
and appends `ied`; (3) final vowel-then-consonant doubles the final
consonant and appends `ed`; (4) otherwise append `ed`. Stated against the
source-derived `getVerbForms` in the C4 theorem. -/
def claimRegularPast (lv : String) : String :=
  match lv.toList.reverse with
  | [] => lv ++ "ed"
  | [c1] =>
    if c1 == 'e' then lv ++ "d" else lv ++ "ed"
  | c1 :: c2 :: _ =>
    if c1 == 'e' then lv ++ "d"
    else if c1 == 'y' && !(isVowel c2) then String.mk lv.toList.dropLast ++ "ied"
    else if isVowel c2 && !(isVowel c1) then lv ++ String.mk [c1] ++ "ed"
    else lv ++ "ed"

/-- The `wordFrequency` object literal of `script.js`, as the exact sequence
of key/value pairs written in the source (the keys `manage`, `synthesize`
and `conceptualize` are written twice; JS keeps the first insertion position
of such a key but its last written value). -/
def wordFrequencyPairs : List (String × ℕ) := [
    ("go", 100), ("get", 99), ("make", 98), ("know", 97), ("think", 96), ("take", 95),
    ("see", 94), ("come", 93), ("want", 92), ("use", 91), ("find", 90), ("give", 89),
    ("tell", 88), ("work", 87), ("call", 86), ("try", 85), ("ask", 84), ("need", 83),
    ("feel", 82), ("become", 81), ("leave", 80), ("put", 79), ("mean", 78), ("keep", 77),
    ("let", 76), ("begin", 75), ("seem", 74), ("help", 73), ("show", 72), ("hear", 71),
    ("play", 70), ("run", 69), ("move", 68), ("like", 67), ("live", 66), ("believe", 65),
    ("bring", 64), ("happen", 63), ("write", 62), ("sit", 61), ("stand", 60), ("lose", 59),
    ("pay", 58), ("meet", 57), ("include", 56), ("continue", 55), ("set", 54), ("learn", 53),
    ("change", 52), ("lead", 51), ("understand", 50), ("watch", 49), ("follow", 48), ("stop", 47),
    ("create", 46), ("speak", 45), ("read", 44), ("spend", 43), ("grow", 42), ("open", 41),
    ("walk", 40), ("win", 39), ("offer", 38), ("remember", 37), ("love", 36), ("consider", 35),
    ("appear", 34), ("buy", 33), ("wait", 32), ("serve", 31), ("die", 30), ("send", 29),
    ("build", 28), ("stay", 27), ("fall", 26), ("cut", 25), ("reach", 24), ("kill", 23),
    ("raise", 22), ("pass", 21), ("sell", 20), ("decide", 19), ("return", 18), ("explain", 17),
    ("develop", 16), ("carry", 15), ("break", 14), ("receive", 13), ("agree", 12), ("support", 11),
    ("hit", 10), ("produce", 9), ("eat", 8), ("cover", 7), ("catch", 6), ("draw", 5),
    ("choose", 4), ("clean", 3), ("wash", 2), ("cook", 1), ("manage", 50), ("invest", 49),
    ("negotiate", 48), ("analyze", 47), ("research", 46), ("design", 45), ("implement", 44), ("evaluate", 43),
    ("improve", 42), ("optimize", 41), ("organize", 40), ("coordinate", 39), ("supervise", 38), ("train", 37),
    ("guide", 36), ("direct", 35), ("execute", 34), ("operate", 33), ("maintain", 32), ("establish", 31),
    ("achieve", 30), ("accomplish", 29), ("complete", 28), ("perform", 27), ("conduct", 26), ("manage", 25),
    ("handle", 24), ("process", 23), ("review", 22), ("assess", 21), ("examine", 20), ("investigate", 19),
    ("explore", 18), ("discover", 17), ("identify", 16), ("define", 15), ("describe", 14), ("discuss", 13),
    ("argue", 12), ("debate", 11), ("critique", 10), ("compare", 9), ("contrast", 8), ("synthesize", 7),
    ("summarize", 6), ("paraphrase", 5), ("cite", 4), ("reference", 3), ("synthesize", 25), ("elucidate", 24),
    ("institutionalize", 23), ("systematize", 22), ("methodize", 21), ("standardize", 20), ("commercialize", 19), ("monetize", 18),
    ("capitalize", 17), ("leverage", 16), ("differentiate", 15), ("distinguish", 14), ("comprehend", 13), ("apprehend", 12),
    ("conceptualize", 11), ("philosophize", 10), ("theorize", 9), ("hypothesize", 8), ("methodologize", 7), ("operationalize", 6),
    ("conceptualize", 5), ("rationalize", 4), ("categorize", 3), ("prioritize", 2)]

/-- Lookup in the `wordFrequency` JS object: the last written value of a key
wins, hence the search through the reversed pair list. -/
def wordFrequency (w : String) : Option ℕ :=
  (wordFrequencyPairs.reverse.find? (fun p => p.1 == w)).map Prod.snd

/-- Helper for `objectKeys`: keep the first occurrence of every key, in
order, given the keys already seen. -/
def firstOccurrencesAux (seen : List String) : List String → List String
  | [] => []
  | k :: rest =>
    if seen.contains k then firstOccurrencesAux seen rest
    else k :: firstOccurrencesAux (k :: seen) rest

/-- JS `Object.keys` on an object literal built from a pair sequence: every
key once, in first-insertion order. -/
def objectKeys (l : List (String × ℕ)) : List String :=
  firstOccurrencesAux [] (l.map Prod.fst)

/-- The derived list `levelMapping.beginner` of `script.js`: keys of
`wordFrequency` whose value is at least 50. -/
def levelMappingBeginner : List String :=
  (objectKeys wordFrequencyPairs).filter (fun w =>
    match wordFrequency w with
    | some f => decide (50 ≤ f)
    | none => false)

/-- The derived list `levelMapping.intermediate` of `script.js`: keys of
`wordFrequency` whose value is at least 20 and below 50. -/
def levelMappingIntermediate : List String :=
  (objectKeys wordFrequencyPairs).filter (fun w =>
    match wordFrequency w with
    | some f => decide (20 ≤ f) && decide (f < 50)
    | none => false)

/-- The derived list `levelMapping.advanced` of `script.js`: keys of
`wordFrequency` whose value is below 20. -/
def levelMappingAdvanced : List String :=
  (objectKeys wordFrequencyPairs).filter (fun w =>
    match wordFrequency w with
    | some f => decide (f < 20)
    | none => false)

/-- The `complexPrefixes` array of `determineLevel`. -/
def complexPrefixList : List String :=
  ["institutional", "systemat", "methodolog", "operational", "conceptual",
   "philosoph", "theor", "hypothes"]

/-- The `complexSuffixes` array of `determineLevel`. -/
def complexSuffixList : List String :=
  ["ize", "ify", "ate"]

/-- The classifier `determineLevel` of `script.js`: frequency-table lookup
with 50/20 cutoffs; then beginner list match by equality, prefix or suffix;
then intermediate and advanced list match by equality or substring; then
the complex prefix/suffix heuristic; finally the raw-length fallback
(at most 4 characters beginner, at most 8 intermediate, else advanced). -/
def determineLevel (verb : String) : String :=
  let verbLower := toLowerStr verb
  match wordFrequency verbLower with
  | some freq =>
    if 50 ≤ freq then "beginner"
    else if 20 ≤ freq then "intermediate"
    else "advanced"
  | none =>
    if levelMappingBeginner.any (fun v =>
        verbLower == v || strStartsWith verbLower v || strEndsWith verbLower v) then "beginner"
    else if levelMappingIntermediate.any (fun v =>
        verbLower == v || strIncludes verbLower v) then "intermediate"
    else if levelMappingAdvanced.any (fun v =>
        verbLower == v || strIncludes verbLower v) then "advanced"
    else if complexPrefixList.any (fun p => strStartsWith verbLower p)
        || (decide (12 < verbLower.length)
            && complexSuffixList.any (fun s => strEndsWith verbLower s)) then "advanced"
    else if verb.length ≤ 4 then "beginner"
    else if verb.length ≤ 8 then "intermediate"
    else "advanced"

/-- After either outcome the updated ease stays inside `[1.3, 2.5]` whenever
the incoming ease was inside. Shared single-step lemma. -/
theorem updateProgress_ease_step (st : ReviewState) (b : Bool) (now : ℕ)
    (h1 : 13/10 ≤ st.ease) (h2 : st.ease ≤ 5/2) :
    13/10 ≤ (updateProgress st b now).ease ∧ (updateProgress st b now).ease ≤ 5/2 := by
  cases b
  · refine ⟨le_max_left _ _, max_le (by norm_num) (by linarith)⟩
  · exact ⟨le_min (by norm_num) (by linarith), min_le_left _ _⟩

/-- C1: for every review state and timestamp, `updateProgress` with a correct
answer adds one to `correct` and sets `ease = min(2.5, ease + 0.1)`, leaving
`incorrect` unchanged; with an incorrect answer it adds one to `incorrect`
and sets `ease = max(1.3, ease - 0.2)`, leaving `correct` unchanged. -/
theorem updateProgress_counts_and_ease (st : ReviewState) (now : ℕ) :
    ((updateProgress st true now).correct = st.correct + 1
      ∧ (updateProgress st true now).incorrect = st.incorrect
      ∧ (updateProgress st true now).ease = min (5/2) (st.ease + 1/10))
    ∧ ((updateProgress st false now).incorrect = st.incorrect + 1
      ∧ (updateProgress st false now).correct = st.correct
      ∧ (updateProgress st false now).ease = max (13/10) (st.ease - 1/5)) := by
  constructor <;> refine ⟨?_, ?_, ?_⟩ <;> simp [updateProgress]

/-- C2: every `updateProgress` call stamps `lastReview` with the current time
and schedules `nextReview` exactly `Math.ceil(ease)` days (in milliseconds)
after it, where `ease` is the updated ease; and when the incoming ease lies
in `[1.3, 2.5]` that ceiling is exactly 2 or 3, so the next review is 2 or 3
days away. -/
theorem updateProgress_schedule (st : ReviewState) (b : Bool) (now : ℕ) :
    (updateProgress st b now).lastReview = some now
    ∧ (updateProgress st b now).nextReview
        = (now : ℤ) + ⌈(updateProgress st b now).ease⌉ * (24 * 60 * 60 * 1000)
    ∧ (13/10 ≤ st.ease → st.ease ≤ 5/2 →
        ((⌈(updateProgress st b now).ease⌉ = 2
            ∧ (updateProgress st b now).nextReview = (now : ℤ) + 2 * (24 * 60 * 60 * 1000))
          ∨ (⌈(updateProgress st b now).ease⌉ = 3
            ∧ (updateProgress st b now).nextReview = (now : ℤ) + 3 * (24 * 60 * 60 * 1000)))) := by
  refine ⟨by simp [updateProgress], by simp [updateProgress], fun h1 h2 => ?_⟩
  obtain ⟨hlo, hhi⟩ := updateProgress_ease_step st b now h1 h2
  have hlt : (1 : ℤ) < ⌈(updateProgress st b now).ease⌉ := by
    rw [Int.lt_ceil]; push_cast; linarith
  have hle : ⌈(updateProgress st b now).ease⌉ ≤ 3 := by
    rw [Int.ceil_le]; push_cast; linarith
  have hsched : (updateProgress st b now).nextReview
      = (now : ℤ) + ⌈(updateProgress st b now).ease⌉ * (24 * 60 * 60 * 1000) := by
    simp [updateProgress]
  have hd : ⌈(updateProgress st b now).ease⌉ = 2 ∨ ⌈(updateProgress st b now).ease⌉ = 3 := by
    omega
  rcases hd with h | h
  · exact Or.inl ⟨h, by rw [hsched, h]⟩
  · exact Or.inr ⟨h, by rw [hsched, h]⟩

/-- C2 witness: concrete instantiation at the initial state (ease 2.5) with a
correct answer at time 0; the conditional part of `updateProgress_schedule`
is discharged there. -/
theorem updateProgress_schedule_witness :
    (⌈(updateProgress (ReviewState.mk 0 0 none 0 (5/2)) true 0).ease⌉ = 2
      ∧ (updateProgress (ReviewState.mk 0 0 none 0 (5/2)) true 0).nextReview
          = (0 : ℤ) + 2 * (24 * 60 * 60 * 1000))
    ∨ (⌈(updateProgress (ReviewState.mk 0 0 none 0 (5/2)) true 0).ease⌉ = 3
      ∧ (updateProgress (ReviewState.mk 0 0 none 0 (5/2)) true 0).nextReview
          = (0 : ℤ) + 3 * (24 * 60 * 60 * 1000)) :=
  (updateProgress_schedule (ReviewState.mk 0 0 none 0 (5/2)) true 0).2.2
    (by norm_num) (by norm_num)

/-- C6: starting from any state whose ease lies in `[1.3, 2.5]`, any sequence
of `updateProgress` calls — in particular any run of all-correct or
all-incorrect answers — leaves the ease inside `[1.3, 2.5]`; the interval is
preserved by every single call. -/
theorem applyOutcomes_ease_clamped (st : ReviewState) (l : List (Bool × ℕ))
    (h1 : 13/10 ≤ st.ease) (h2 : st.ease ≤ 5/2) :
    13/10 ≤ (applyOutcomes st l).ease ∧ (applyOutcomes st l).ease ≤ 5/2 := by
  induction l generalizing st with
  | nil => exact ⟨h1, h2⟩
  | cons p tl ih =>
      obtain ⟨g1, g2⟩ := updateProgress_ease_step st p.1 p.2 h1 h2
      exact ih (updateProgress st p.1 p.2) g1 g2

/-- C6 witness: a concrete three-answer session starting from the initial
ease 2.5 stays inside the clamp interval. -/
theorem applyOutcomes_ease_clamped_witness :
    13/10 ≤ (applyOutcomes (ReviewState.mk 0 0 none 0 (5/2))
        [(false, 10), (true, 20), (true, 30)]).ease
    ∧ (applyOutcomes (ReviewState.mk 0 0 none 0 (5/2))
        [(false, 10), (true, 20), (true, 30)]).ease ≤ 5/2 :=
  applyOutcomes_ease_clamped (ReviewState.mk 0 0 none 0 (5/2))
    [(false, 10), (true, 20), (true, 30)] (by norm_num) (by norm_num)

/-- C7 counterexample: a stored state with ease 0 (outside `[1.3, 2.5]`) is
not brought back into the interval by a single `updateProgress` call with a
correct answer — the result ease is `min(2.5, 0 + 0.1) = 0.1`, still below
1.3. The claim promised recovery for either outcome. -/
theorem updateProgress_partial_clamp_cex :
    ((ReviewState.mk 0 0 none 0 0).ease < 13/10 ∨ 5/2 < (ReviewState.mk 0 0 none 0 0).ease)
    ∧ ¬ (13/10 ≤ (updateProgress (ReviewState.mk 0 0 none 0 0) true 0).ease
        ∧ (updateProgress (ReviewState.mk 0 0 none 0 0) true 0).ease ≤ 5/2) := by
  constructor
  · left; norm_num
  · intro h
    have := h.1
    simp [updateProgress] at this
    norm_num at this

/-- C7 amended: a stored ease outside `[1.3, 2.5]` is recovered by a single
`updateProgress` call whose outcome moves the ease toward the interval —
a correct answer when the ease is above 2.5, an incorrect answer when it is
below 1.3; the opposite outcome need not restore the interval in one call. -/
theorem updateProgress_clamp_toward_range (st : ReviewState) (now : ℕ) (b : Bool)
    (h : (b = true ∧ 5/2 < st.ease) ∨ (b = false ∧ st.ease < 13/10)) :
    13/10 ≤ (updateProgress st b now).ease ∧ (updateProgress st b now).ease ≤ 5/2 := by
  rcases h with ⟨hb, he⟩ | ⟨hb, he⟩ <;> subst hb
  · have heq : (updateProgress st true now).ease = 5/2 := by
      show min (5/2 : ℚ) (st.ease + 1/10) = 5/2
      exact min_eq_left (by linarith)
    rw [heq]; constructor <;> norm_num
  · have heq : (updateProgress st false now).ease = 13/10 := by
      show max (13/10 : ℚ) (st.ease - 1/5) = 13/10
      exact max_eq_left (by linarith)
    rw [heq]; constructor <;> norm_num

/-- C7 amended witness: a state with ease 3 (above the interval) is clamped
back to `[1.3, 2.5]` by one correct answer. -/
theorem updateProgress_clamp_toward_range_witness :
    13/10 ≤ (updateProgress (ReviewState.mk 0 0 none 0 3) true 0).ease
    ∧ (updateProgress (ReviewState.mk 0 0 none 0 3) true 0).ease ≤ 5/2 :=
  updateProgress_clamp_toward_range (ReviewState.mk 0 0 none 0 3) 0 true
    (Or.inl ⟨rfl, by norm_num⟩)

/-- C8: for an id of the word bank, membership in `getWordsForReview` is
decided exactly by `nextReview <= now` of its stored progress: an entry due
exactly now is kept, an entry due strictly later is dropped, and an id with
no stored progress is always kept (its default `nextReview` is 0 and the
clock is never negative). -/
theorem getWordsForReview_mem (wordBank : List ℕ) (progress : List (ℕ × ReviewState))
    (now : ℕ) (id : ℕ) (hbank : id ∈ wordBank) :
    id ∈ getWordsForReview wordBank progress now ↔
      (match progress.lookup id with
       | some st => st.nextReview ≤ (now : ℤ)
       | none => True) := by
  unfold getWordsForReview
  rw [List.mem_filter]
  cases h : progress.lookup id <;> simp [h, hbank]

/-- C8 witness: with the bank `[7]` and a stored entry for 7 due exactly at
time 5, the membership test at `now = 5` reduces to `5 ≤ 5`. -/
theorem getWordsForReview_mem_witness :
    7 ∈ getWordsForReview [7] [(7, ReviewState.mk 1 0 (some 4) 5 2)] 5 ↔
      (match List.lookup 7 [(7, ReviewState.mk 1 0 (some 4) 5 2)] with
       | some st => st.nextReview ≤ ((5 : ℕ) : ℤ)
       | none => True) :=
  getWordsForReview_mem [7] [(7, ReviewState.mk 1 0 (some 4) 5 2)] 5 7 (by decide)

/-- C10: everything returned by `getWordsForReview` comes from the word bank;
a due progress entry whose id is not in the bank is never returned. -/
theorem getWordsForReview_subset_bank (wordBank : List ℕ)
    (progress : List (ℕ × ReviewState)) (now : ℕ) (id : ℕ)
    (h : id ∈ getWordsForReview wordBank progress now) : id ∈ wordBank :=
  List.mem_of_mem_filter h

/-- C10 witness: the id 3 returned for the bank `[3]` with empty progress is
indeed in the bank. -/
theorem getWordsForReview_subset_bank_witness : 3 ∈ [3] :=
  getWordsForReview_subset_bank [3] [] 0 3 (by decide)

/-- Key/value pairs found by `List.lookup` are entries of the list. -/
theorem lookup_mem {l : List (String × String × String)} {k : String}
    {v : String × String} (h : l.lookup k = some v) : (k, v) ∈ l := by
  induction l with
  | nil => simp [List.lookup] at h
  | cons hd tl ih =>
    obtain ⟨k', v'⟩ := hd
    rw [List.lookup] at h
    cases hk : k == k'
    · rw [hk] at h
      exact List.mem_cons_of_mem _ (ih h)
    · rw [hk] at h
      injection h with h'
      subst h'
      rcases eq_of_beq hk
      exact List.mem_cons_self _ _

/-- Every stored past and participle of the irregular table is non-empty. -/
theorem irregular_values_filled :
    ∀ e ∈ irregularVerbs, e.2.1 ≠ "" ∧ e.2.2 ≠ "" := by decide

/-- Appending a non-empty string never yields the empty string. -/
theorem str_append_ne_empty (s t : String) (h : t.toList ≠ []) : s ++ t ≠ "" := by
  intro he
  have hd : (s ++ t).toList = [] := by rw [he]; rfl
  rw [String.toList, String.data_append] at hd
  rcases List.append_eq_nil.mp hd with ⟨_, h2⟩
  exact h h2

/-- C3: for every entry (w, p, pp) of the irregular-verb table,
`getVerbForms w` returns v1 = w, v2 = p, v3 = pp and the irregular tag. -/
theorem getVerbForms_irregular_table :
    ∀ e ∈ irregularVerbs,
      getVerbForms e.1 = ⟨e.1, e.2.1, e.2.2, ConjugationType.irregular⟩ := by decide

/-- C3 witness: the table entry (go, went, gone) is conjugated verbatim. -/
theorem getVerbForms_irregular_table_witness :
    getVerbForms "go" = ⟨"go", "went", "gone", ConjugationType.irregular⟩ :=
  getVerbForms_irregular_table ("go", "went", "gone") (by decide)

/-- C4: for every non-empty base whose lower-cased form is not an irregular
key, `getVerbForms` derives the past form by exactly the four spec rules in
the spec's precedence order (final `e` appends `d`; else final non-vowel
plus `y` drops the `y` and appends `ied`; else final vowel plus consonant
doubles the final consonant and appends `ed`; else appends `ed`), as
captured by `claimRegularPast`. -/
theorem getVerbForms_regular_rules (verb : String) (_hne : verb ≠ "")
    (hirr : irregularVerbs.lookup (toLowerStr verb) = none) :
    (getVerbForms verb).v2 = claimRegularPast (toLowerStr verb) := by
  simp only [getVerbForms, hirr, claimRegularPast]
  rcases hrev : (toLowerStr verb).data.reverse with _ | ⟨c1, _ | ⟨c2, rest⟩⟩
  · simp [strEndsWith, regexConsonantYEnd, regexVowelConsonantEnd, hrev]
  · by_cases hc : c1 = 'e'
    · simp [strEndsWith, regexConsonantYEnd, regexVowelConsonantEnd, hrev, hc,
        List.cons_prefix_cons]
    · simp [strEndsWith, regexConsonantYEnd, regexVowelConsonantEnd, hrev, hc,
        List.cons_prefix_cons, Ne.symm hc]
  · have hslice : jsSliceLast (toLowerStr verb) = String.mk [c1] := by
      unfold jsSliceLast
      rw [show (toLowerStr verb).toList.reverse = c1 :: c2 :: rest from hrev]
    by_cases hc : c1 = 'e'
    · simp [strEndsWith, regexConsonantYEnd, regexVowelConsonantEnd, hrev, hc,
        List.cons_prefix_cons]
    · by_cases hy : c1 = 'y' ∧ isVowel c2 = false
      · simp [strEndsWith, regexConsonantYEnd, regexVowelConsonantEnd, hrev, hc,
          List.cons_prefix_cons, Ne.symm hc, hy.1, hy.2, jsDropLast]
      · by_cases hv : isVowel c2 = true ∧ isVowel c1 = false
        · simp [strEndsWith, regexConsonantYEnd, regexVowelConsonantEnd, hrev, hc,
            List.cons_prefix_cons, Ne.symm hc, hv.1, hv.2, hslice,
            Decidable.not_and_iff_or_not.mp hy]
        · have hv1 : ¬ (isVowel c1 = false ∧ isVowel c2 = true) := fun h => hv ⟨h.2, h.1⟩
          simp [strEndsWith, regexConsonantYEnd, regexVowelConsonantEnd, hrev, hc,
            List.cons_prefix_cons, Ne.symm hc, if_neg hy, if_neg hv, if_neg hv1]

/-- C4 witness: the CVC verb `chat` follows the doubling rule, matching the
spec-side derivation. -/
theorem getVerbForms_regular_rules_witness :
    (getVerbForms "chat").v2 = claimRegularPast (toLowerStr "chat") :=
  getVerbForms_regular_rules "chat" (by decide) (by decide)

/-- C5: for every non-empty base, the past and participle returned by
`getVerbForms` are non-empty; and when the lower-cased base is not an
irregular key the result is tagged regular (the tag the source spells
`common`) with participle equal to the derived past. -/
theorem getVerbForms_regular_invariants (verb : String) (_hne : verb ≠ "") :
    (getVerbForms verb).v2 ≠ "" ∧ (getVerbForms verb).v3 ≠ ""
    ∧ (match irregularVerbs.lookup (toLowerStr verb) with
       | none => (getVerbForms verb).type = ConjugationType.regular
           ∧ (getVerbForms verb).v3 = (getVerbForms verb).v2
       | some _ => True) := by
  cases hirr : irregularVerbs.lookup (toLowerStr verb) with
  | some pq =>
    have hfill := irregular_values_filled _ (lookup_mem hirr)
    have hv : getVerbForms verb = ⟨toLowerStr verb, pq.1, pq.2, ConjugationType.irregular⟩ := by
      simp only [getVerbForms, hirr]
    rw [hv]
    exact ⟨hfill.1, hfill.2, trivial⟩
  | none =>
    have hv : getVerbForms verb =
        ⟨toLowerStr verb,
          if strEndsWith (toLowerStr verb) "e" then toLowerStr verb ++ "d"
          else if regexConsonantYEnd (toLowerStr verb) then jsDropLast (toLowerStr verb) ++ "ied"
          else if regexVowelConsonantEnd (toLowerStr verb) then
            toLowerStr verb ++ jsSliceLast (toLowerStr verb) ++ "ed"
          else toLowerStr verb ++ "ed",
          if strEndsWith (toLowerStr verb) "e" then toLowerStr verb ++ "d"
          else if regexConsonantYEnd (toLowerStr verb) then jsDropLast (toLowerStr verb) ++ "ied"
          else if regexVowelConsonantEnd (toLowerStr verb) then
            toLowerStr verb ++ jsSliceLast (toLowerStr verb) ++ "ed"
          else toLowerStr verb ++ "ed",
          ConjugationType.regular⟩ := by
      simp only [getVerbForms, hirr]
    have h2 : (getVerbForms verb).v2 ≠ "" := by
      rw [hv]
      split
      · exact str_append_ne_empty _ _ (by decide)
      · split
        · exact str_append_ne_empty _ _ (by decide)
        · split
          · exact str_append_ne_empty _ _ (by decide)
          · exact str_append_ne_empty _ _ (by decide)
    have h3 : (getVerbForms verb).v3 = (getVerbForms verb).v2 := by rw [hv]
    refine ⟨h2, ?_, ?_⟩
    · rw [h3]; exact h2
    · exact ⟨by rw [hv], h3⟩

/-- C5 witness: the regular verb `walk` has non-empty equal past and
participle and the regular tag. -/
theorem getVerbForms_regular_invariants_witness :
    (getVerbForms "walk").v2 ≠ "" ∧ (getVerbForms "walk").v3 ≠ ""
    ∧ (match irregularVerbs.lookup (toLowerStr "walk") with
       | none => (getVerbForms "walk").type = ConjugationType.regular
           ∧ (getVerbForms "walk").v3 = (getVerbForms "walk").v2
       | some _ => True) :=
  getVerbForms_regular_invariants "walk" (by decide)

/-- C9: a verb that misses the frequency table, matches none of the three
level lists under the source's equality/prefix/suffix/substring tests, and
triggers neither complex-affix heuristic, is classified purely by raw
length: at most 4 characters beginner, at most 8 intermediate, otherwise
advanced (so length 3 gives beginner, length 6 intermediate, length 15
advanced). -/
theorem determineLevel_length_fallback (verb : String)
    (h1 : wordFrequency (toLowerStr verb) = none)
    (h2 : levelMappingBeginner.any (fun v =>
        toLowerStr verb == v || strStartsWith (toLowerStr verb) v
          || strEndsWith (toLowerStr verb) v) = false)
    (h3 : levelMappingIntermediate.any (fun v =>
        toLowerStr verb == v || strIncludes (toLowerStr verb) v) = false)
    (h4 : levelMappingAdvanced.any (fun v =>
        toLowerStr verb == v || strIncludes (toLowerStr verb) v) = false)
    (h5 : (complexPrefixList.any (fun p => strStartsWith (toLowerStr verb) p)
        || (decide (12 < (toLowerStr verb).length)
            && complexSuffixList.any (fun s => strEndsWith (toLowerStr verb) s))) = false) :
    determineLevel verb =
      if verb.length ≤ 4 then "beginner"
      else if verb.length ≤ 8 then "intermediate"
      else "advanced" := by
  simp only [determineLevel, h1, h2, h3, h4, h5, Bool.false_eq_true, if_false]

/-- C9 witness: the word `zzz` (length 3, matching nothing) falls through to
the length fallback and is classified beginner. -/
theorem determineLevel_length_fallback_witness :
    determineLevel "zzz" =
      if "zzz".length ≤ 4 then "beginner"
      else if "zzz".length ≤ 8 then "intermediate"
      else "advanced" :=
  determineLevel_length_fallback "zzz" (by decide) (by decide) (by decide)
    (by decide) (by decide)
